import Mathlib

/-!
Shallow embedding of the recommendation core of the VillageLink ML service
(`src/microservices/ml-service/app.py`): the classes `ItemToItemCF` and
`ContentBasedFilter`, with their operations `fit`, `recommend`, `add_item`,
`find_similar` and `_calculate_similarity`.

Python dictionaries are modelled as insertion-ordered association lists
(`Dict`), Python string comparison as code-point lexicographic comparison,
Python list slicing `l[:n]` (including its negative-index semantics) as
`pySlice`, and Python's stable `sort(key=..., reverse=True)` as the stable
insertion sort `sortDesc`.  JSON numbers are modelled as rationals, and a
Python scalar feature value as the tagged union `Scalar`; Python's
`isinstance(v, (int, float))` is true on booleans (`bool` is a subclass of
`int`), which `Scalar.isNumeric` reproduces.
-/

/-- Python dict as an insertion-ordered association list; every dict built by
the embedded code has unique keys. -/
abbrev Dict (α β : Type) := List (α × β)

/-- Python dict assignment: update the value in place if the key exists
(keeping its position), else append the binding at the end. -/
def dinsert [DecidableEq α] : Dict α β → α → β → Dict α β
  | [], k, v => [(k, v)]
  | p :: l, k, v => if p.1 = k then (k, v) :: l else p :: dinsert l k v

/-- First-match association lookup, Python dict indexing. -/
def dlookup [DecidableEq α] : Dict α β → α → Option β
  | [], _ => none
  | p :: l, k => if p.1 = k then some p.2 else dlookup l k

/-- Python dict.get with a default. -/
def dget [DecidableEq α] (l : Dict α β) (k : α) (d : β) : β :=
  (dlookup l k).getD d

/-- Lexicographic comparison of character lists, by code point, as Python
compares strings. -/
def lexLe : List Char → List Char → Bool
  | [], _ => true
  | _ :: _, [] => false
  | x :: xs, y :: ys => if x = y then lexLe xs ys else decide (x < y)

/-- Python string comparison a ≤ b. -/
def strLe (a b : String) : Bool :=
  lexLe a.data b.data

/-- Python tuple(sorted([a, b])): the canonical (sorted) form of a pair. -/
def sortPair (a b : String) : String × String :=
  if strLe a b then (a, b) else (b, a)

/-- Python slice l[:n] for an arbitrary integer n: a nonnegative n keeps the
first n elements; a negative n keeps all but the last |n| elements. -/
def pySlice (n : ℤ) (l : List α) : List α :=
  if 0 ≤ n then l.take n.toNat else l.take ((l.length : ℤ) + n).toNat

/-- Stable insertion for a descending-by-score list: the new element is put
before the first element whose score is less than or equal to its own, hence
before every equally scored element that was inserted earlier. -/
def insDesc [LinearOrder β] (x : α × β) : List (α × β) → List (α × β)
  | [] => [x]
  | y :: l => if y.2 ≤ x.2 then x :: y :: l else y :: insDesc x l

/-- Python sorted(pairs, key=lambda x: x[1], reverse=True): the stable sort by
score, descending.  Inserting each element into the stable sort of the later
ones reproduces exactly the stable descending order. -/
def sortDesc [LinearOrder β] : List (α × β) → List (α × β)
  | [] => []
  | x :: l => insDesc x (sortDesc l)

/-- One interaction record handed to ItemToItemCF.fit. -/
structure Interaction where
  user_id : String
  item_id : String
  rating : ℚ
deriving DecidableEq

/-- The state of a ItemToItemCF instance. -/
structure ItemToItemCF where
  item_similarity : Dict String (Dict String ℕ)
  item_ids : List String
  co_occurrence : Dict (String × String) ℕ
deriving DecidableEq

/-- ItemToItemCF.__init__: all three tables empty. -/
def ItemToItemCF.init : ItemToItemCF :=
  ⟨[], [], []⟩

/-- First loop of fit: group the interactions by user, keeping each user's
items in arrival order (duplicates retained), and register every new item id
at the end of item_ids (first-seen order).  The grouping dict starts empty at
each call, but item_ids is the instance field and is carried over. -/
def fitGroup : List Interaction → Dict String (List String) → List String →
    Dict String (List String) × List String
  | [], ui, ids => (ui, ids)
  | i :: rest, ui, ids =>
    fitGroup rest (dinsert ui i.user_id (dget ui i.user_id [] ++ [i.item_id]))
      (if i.item_id ∈ ids then ids else ids ++ [i.item_id])

/-- Innermost loop of the co-occurrence pass: count items[i] against every
later entry of the same user's list, under the canonical sorted key. -/
def countPairsFrom (x : String) (rest : List String)
    (co : Dict (String × String) ℕ) : Dict (String × String) ℕ :=
  rest.foldl (fun co y => dinsert co (sortPair x y) (dget co (sortPair x y) 0 + 1)) co

/-- Co-occurrence pass over one user's item list: every index pair i < j. -/
def countPairs : List String → Dict (String × String) ℕ → Dict (String × String) ℕ
  | [], co => co
  | x :: rest, co => countPairs rest (countPairsFrom x rest co)

/-- Co-occurrence pass over every user, in grouping order.  The counts are
added into the co_occurrence dict already present on the instance. -/
def countAllUsers (ui : Dict String (List String)) (co : Dict (String × String) ℕ) :
    Dict (String × String) ℕ :=
  ui.foldl (fun co p => countPairs p.2 co) co

/-- Similarity row of one item: a fresh dict mapping every other registered
item to the co-occurrence count of the canonical pair (0 if absent). -/
def buildRow (ids : List String) (co : Dict (String × String) ℕ) (item : String) :
    Dict String ℕ :=
  ids.foldl (fun row other =>
    if item ≠ other then dinsert row other (dget co (sortPair item other) 0) else row) []

/-- Last loop of fit: assign a freshly built row for every registered item
into the item_similarity dict already present on the instance. -/
def buildSim (ids : List String) (co : Dict (String × String) ℕ)
    (sim : Dict String (Dict String ℕ)) : Dict String (Dict String ℕ) :=
  ids.foldl (fun sim item => dinsert sim item (buildRow ids co item)) sim

/-- ItemToItemCF.fit.  Note that the method never clears item_ids,
co_occurrence or item_similarity: the grouping dict is local and fresh, but
the three instance fields accumulate on top of whatever a previous fit left
behind. -/
def ItemToItemCF.fit (st : ItemToItemCF) (interactions : List Interaction) :
    ItemToItemCF :=
  ⟨buildSim (fitGroup interactions [] st.item_ids).2
      (countAllUsers (fitGroup interactions [] st.item_ids).1 st.co_occurrence)
      st.item_similarity,
    (fitGroup interactions [] st.item_ids).2,
    countAllUsers (fitGroup interactions [] st.item_ids).1 st.co_occurrence⟩

/-- One step of the score loop of recommend: a history item absent from
item_similarity is skipped; a known one adds its whole row into the running
scores, skipping candidates that appear anywhere in the history list. -/
def accumStep (st : ItemToItemCF) (history : List String)
    (scores : Dict String ℕ) (h : String) : Dict String ℕ :=
  match dlookup st.item_similarity h with
  | none => scores
  | some row =>
    row.foldl (fun sc p =>
      if p.1 ∈ history then sc else dinsert sc p.1 (dget sc p.1 0 + p.2)) scores

/-- The scores dict recommend builds before sorting. -/
def accumScores (st : ItemToItemCF) (history : List String) : Dict String ℕ :=
  history.foldl (accumStep st history) []

/-- ItemToItemCF.recommend: accumulate scores, sort them descending by score
(Python's stable sort), and take the Python slice [:n]. -/
def ItemToItemCF.recommend (st : ItemToItemCF) (history : List String) (n : ℤ) :
    List (String × ℕ) :=
  pySlice n (sortDesc (accumScores st history))

/-- A Python scalar feature value as it arrives from JSON. -/
inductive Scalar where
  | num (q : ℚ)
  | str (s : String)
  | bool (b : Bool)
deriving DecidableEq

/-- The numeric value Python arithmetic sees; booleans count as 1 and 0. -/
def Scalar.numVal : Scalar → ℚ
  | num q => q
  | str _ => 0
  | bool b => if b then 1 else 0

/-- Python isinstance(v, (int, float)).  True on booleans, because bool is a
subclass of int in Python. -/
def Scalar.isNumeric : Scalar → Bool
  | num _ => true
  | str _ => false
  | bool _ => true

/-- Python equality between scalar values: strings compare by content and are
never equal to numbers or booleans; numbers and booleans compare by numeric
value (True == 1, False == 0, and int == float by value). -/
def pyEq : Scalar → Scalar → Bool
  | Scalar.str s, Scalar.str t => decide (s = t)
  | Scalar.str _, _ => false
  | _, Scalar.str _ => false
  | a, b => decide (a.numVal = b.numVal)

/-- Loop body of ContentBasedFilter._calculate_similarity: a key missing from
the item contributes nothing, an equal value adds 1, otherwise two numeric
values add the decayed proximity score. -/
def calcStep (item : Dict String Scalar) (score : ℚ) (kv : String × Scalar) : ℚ :=
  match dlookup item kv.1 with
  | none => score
  | some v =>
    if pyEq v kv.2 then score + 1
    else if kv.2.isNumeric && v.isNumeric then
      score + 1 / (1 + |kv.2.numVal - v.numVal|)
    else score

/-- ContentBasedFilter._calculate_similarity: fold the loop body over the
query pairs, starting from 0. -/
def calculateSimilarity (query item : Dict String Scalar) : ℚ :=
  query.foldl (calcStep item) 0

/-- The state of a ContentBasedFilter instance. -/
structure ContentBasedFilter where
  items : Dict String (Dict String Scalar)
deriving DecidableEq

/-- ContentBasedFilter.add_item: last write wins, position kept. -/
def ContentBasedFilter.add_item (cb : ContentBasedFilter) (item_id : String)
    (features : Dict String Scalar) : ContentBasedFilter :=
  ⟨dinsert cb.items item_id features⟩

/-- ContentBasedFilter.find_similar: score every stored item in insertion
order, sort stably by score descending, and take the Python slice [:n]. -/
def ContentBasedFilter.find_similar (cb : ContentBasedFilter)
    (query_features : Dict String Scalar) (n : ℤ) : List (String × ℚ) :=
  pySlice n (sortDesc (cb.items.map (fun p => (p.1, calculateSimilarity query_features p.2))))

/-- The state reached from a fresh recommender by a sequence of fit calls. -/
def stOf (ss : List (List Interaction)) : ItemToItemCF :=
  ss.foldl ItemToItemCF.fit ItemToItemCF.init

/-- The similarity table entry item_similarity[A][B], when both levels exist. -/
def simAt (st : ItemToItemCF) (A B : String) : Option ℕ :=
  (dlookup st.item_similarity A).bind (fun row => dlookup row B)

/-- Scalar strictly of number kind, as the specification understands
"numeric" (a boolean is not a number to the spec). -/
def Scalar.isNum : Scalar → Bool
  | num _ => true
  | _ => false

/-- Per-key contribution exactly as claim C3 words it: 1 on exact equality of
the two scalar values, decayed proximity when both are numbers, and 0 on a
type mismatch, where a boolean counts as a mismatch against a number. -/
def claimContribC3 (item : Dict String Scalar) (kv : String × Scalar) : ℚ :=
  match dlookup item kv.1 with
  | none => 0
  | some v =>
    if v = kv.2 then 1
    else if kv.2.isNum && v.isNum then 1 / (1 + |kv.2.numVal - v.numVal|)
    else 0

/-- The candidate score claim C3 describes: the sum over the query keys of
the per-key contribution. -/
def claimScoreC3 (query item : Dict String Scalar) : ℚ :=
  (query.map (claimContribC3 item)).sum

/-- Per-key contribution under Python semantics, the amendment of C3:
equality is Python equality (True == 1, int == float by value) and numeric
includes booleans, since bool is a subclass of int. -/
def pyContrib (item : Dict String Scalar) (kv : String × Scalar) : ℚ :=
  match dlookup item kv.1 with
  | none => 0
  | some v =>
    if pyEq v kv.2 then 1
    else if kv.2.isNumeric && v.isNumeric then 1 / (1 + |kv.2.numVal - v.numVal|)
    else 0

/-! ### Association-list lemmas -/

theorem dlookup_dinsert [DecidableEq α] (l : Dict α β) (k : α) (v : β) (k' : α) :
    dlookup (dinsert l k v) k' = if k' = k then some v else dlookup l k' := by
  induction l with
  | nil =>
    simp only [dinsert, dlookup]
    by_cases h : k = k'
    · rw [if_pos h, if_pos h.symm]
    · rw [if_neg h, if_neg fun hh => h hh.symm]
  | cons p l ih =>
    by_cases hp : p.1 = k
    · simp only [dinsert, if_pos hp, dlookup]
      by_cases h : k = k'
      · rw [if_pos h, if_pos h.symm]
      · rw [if_neg h, if_neg fun hh => h hh.symm, if_neg fun hh => h (hp.symm.trans hh)]
    · simp only [dinsert, if_neg hp, dlookup]
      by_cases hq : p.1 = k'
      · have hk : ¬ k' = k := fun hh => hp (hq.trans hh)
        rw [if_pos hq, if_neg hk, if_pos hq]
      · rw [if_neg hq, ih]
        by_cases h : k' = k
        · rw [if_pos h, if_pos h]
        · rw [if_neg h, if_neg h, if_neg hq]

theorem mem_dinsert [DecidableEq α] {l : Dict α β} {k : α} {v : β} {p : α × β}
    (hp : p ∈ dinsert l k v) : p = (k, v) ∨ p ∈ l := by
  induction l with
  | nil => simpa [dinsert] using hp
  | cons q l ih =>
    by_cases hq : q.1 = k
    · simp only [dinsert, if_pos hq] at hp
      rcases List.mem_cons.mp hp with h | h
      · exact Or.inl h
      · exact Or.inr (List.mem_cons_of_mem _ h)
    · simp only [dinsert, if_neg hq] at hp
      rcases List.mem_cons.mp hp with h | h
      · exact Or.inr (by rw [h]; exact List.mem_cons_self q l)
      · rcases ih h with h' | h'
        · exact Or.inl h'
        · exact Or.inr (List.mem_cons_of_mem _ h')

theorem isSome_dlookup_of_mem [DecidableEq α] {l : Dict α β} {p : α × β}
    (hp : p ∈ l) : (dlookup l p.1).isSome := by
  induction l with
  | nil => cases hp
  | cons q l ih =>
    rcases List.mem_cons.mp hp with h | h
    · simp [dlookup, h]
    · by_cases hq : q.1 = p.1 <;> simp [dlookup, hq, ih h]

theorem mem_of_dlookup_eq_some [DecidableEq α] {l : Dict α β} {k : α} {v : β}
    (h : dlookup l k = some v) : (k, v) ∈ l := by
  induction l with
  | nil => simp [dlookup] at h
  | cons q l ih =>
    by_cases hq : q.1 = k
    · simp only [dlookup, if_pos hq] at h
      exact List.mem_cons.mpr (Or.inl (by rw [← hq, ← Option.some.inj h]))
    · simp only [dlookup, if_neg hq] at h
      exact List.mem_cons_of_mem _ (ih h)

theorem nodupKeys_dinsert [DecidableEq α] {l : Dict α β} (k : α) (v : β)
    (h : (l.map Prod.fst).Nodup) : ((dinsert l k v).map Prod.fst).Nodup := by
  induction l with
  | nil => simp [dinsert]
  | cons q l ih =>
    simp only [List.map_cons, List.nodup_cons] at h
    by_cases hq : q.1 = k
    · simp only [dinsert, if_pos hq, List.map_cons, List.nodup_cons]
      exact ⟨fun hm => h.1 (by rw [hq]; exact hm), h.2⟩
    · simp only [dinsert, if_neg hq, List.map_cons, List.nodup_cons]
      constructor
      · intro hm
        rcases List.mem_map.mp hm with ⟨p, hp, hfst⟩
        rcases mem_dinsert hp with h' | h'
        · exact hq (by rw [← hfst, h'])
        · exact h.1 (hfst ▸ List.mem_map_of_mem Prod.fst h')
      · exact ih h.2

/-! ### String-comparison lemmas -/

theorem lexLe_total (a b : List Char) : lexLe a b = true ∨ lexLe b a = true := by
  induction a generalizing b with
  | nil => simp [lexLe]
  | cons x xs ih =>
    cases b with
    | nil => simp [lexLe]
    | cons y ys =>
      by_cases hxy : x = y
      · subst hxy
        simpa [lexLe] using ih ys
      · rcases lt_trichotomy x y with h | h | h
        · exact Or.inl (by simp [lexLe, hxy, h])
        · exact absurd h hxy
        · exact Or.inr (by simp [lexLe, Ne.symm hxy, h])

theorem lexLe_antisymm {a b : List Char} (h1 : lexLe a b = true)
    (h2 : lexLe b a = true) : a = b := by
  induction a generalizing b with
  | nil =>
    cases b with
    | nil => rfl
    | cons y ys => simp [lexLe] at h2
  | cons x xs ih =>
    cases b with
    | nil => simp [lexLe] at h1
    | cons y ys =>
      by_cases hxy : x = y
      · subst hxy
        simp only [lexLe, if_pos rfl] at h1 h2
        exact congrArg (x :: ·) (ih h1 h2)
      · simp [lexLe, hxy, Ne.symm hxy] at h1 h2
        exact absurd (lt_trans h1 h2) (lt_irrefl x)

theorem strLe_total (a b : String) : strLe a b = true ∨ strLe b a = true :=
  lexLe_total a.data b.data

theorem strLe_antisymm {a b : String} (h1 : strLe a b = true)
    (h2 : strLe b a = true) : a = b :=
  String.ext (lexLe_antisymm h1 h2)

theorem sortPair_comm (a b : String) : sortPair a b = sortPair b a := by
  unfold sortPair
  by_cases h1 : strLe a b = true <;> by_cases h2 : strLe b a = true
  · rw [if_pos h1, if_pos h2, strLe_antisymm h1 h2]
  · rw [if_pos h1, if_neg h2]
  · rw [if_neg h1, if_pos h2]
  · rcases strLe_total a b with h | h
    · exact absurd h h1
    · exact absurd h h2

theorem sortPair_canonical (a b : String) :
    strLe (sortPair a b).1 (sortPair a b).2 = true := by
  unfold sortPair
  by_cases h : strLe a b = true
  · simp [h]
  · rcases strLe_total a b with h' | h'
    · exact absurd h' h
    · simp [h, h']

/-! ### Stable descending sort lemmas -/

theorem insDesc_perm [LinearOrder β] (x : α × β) (l : List (α × β)) :
    (insDesc x l).Perm (x :: l) := by
  induction l with
  | nil => simp [insDesc]
  | cons y l ih =>
    by_cases h : y.2 ≤ x.2
    · simp [insDesc, h]
    · simp only [insDesc, if_neg h]
      exact (ih.cons y).trans (List.Perm.swap x y l)

theorem sortDesc_perm [LinearOrder β] (l : List (α × β)) :
    (sortDesc l).Perm l := by
  induction l with
  | nil => simp [sortDesc]
  | cons x l ih => exact (insDesc_perm x (sortDesc l)).trans (ih.cons x)

theorem pairwise_insDesc [LinearOrder β] {x : α × β} {l : List (α × β)}
    (h : l.Pairwise (fun a b => b.2 ≤ a.2)) :
    (insDesc x l).Pairwise (fun a b => b.2 ≤ a.2) := by
  induction l with
  | nil => simp [insDesc]
  | cons y l ih =>
    rcases List.pairwise_cons.mp h with ⟨hy, hl⟩
    by_cases hle : y.2 ≤ x.2
    · simp only [insDesc, if_pos hle]
      refine List.pairwise_cons.mpr ⟨?_, h⟩
      intro z hz
      rcases List.mem_cons.mp hz with h' | h'
      · exact h' ▸ hle
      · exact le_trans (hy z h') hle
    · simp only [insDesc, if_neg hle]
      refine List.pairwise_cons.mpr ⟨?_, ih hl⟩
      intro z hz
      rcases List.mem_cons.mp (((insDesc_perm x l).mem_iff).mp hz) with h' | h'
      · exact h' ▸ le_of_lt (lt_of_not_le hle)
      · exact hy z h'

theorem pairwise_sortDesc [LinearOrder β] (l : List (α × β)) :
    (sortDesc l).Pairwise (fun a b => b.2 ≤ a.2) := by
  induction l with
  | nil => simp [sortDesc]
  | cons x l ih => exact pairwise_insDesc ih

/-! ### Slice lemmas -/

theorem pySlice_sublist (n : ℤ) (l : List α) : List.Sublist (pySlice n l) l := by
  unfold pySlice
  by_cases h : 0 ≤ n
  · rw [if_pos h]
    exact List.take_sublist _ _
  · rw [if_neg h]
    exact List.take_sublist _ _

theorem pySlice_eq_self {n : ℤ} (l : List α) (h : (l.length : ℤ) ≤ n) :
    pySlice n l = l := by
  have h0 : 0 ≤ n := le_trans (Int.ofNat_nonneg l.length) h
  have hle : l.length ≤ n.toNat := by omega
  simp [pySlice, h0, List.take_of_length_le hle]

theorem pySlice_eq_nil {n : ℤ} (l : List α)
    (h : n = 0 ∨ (l.length : ℤ) + n ≤ 0) : pySlice n l = [] := by
  by_cases h0 : 0 ≤ n
  · have hn : n = 0 := by
      rcases h with h | h
      · exact h
      · omega
    simp [pySlice, hn]
  · have hz : ((l.length : ℤ) + n).toNat = 0 := by omega
    simp [pySlice, h0, hz]

/-! ### Lookup in the folded dict builders -/

theorem dlookup_foldl_dinsert_guard [DecidableEq α] (f : α → β) (p : α → Prop)
    [DecidablePred p] (ids : List α) (acc : Dict α β) (k : α) :
    dlookup (ids.foldl (fun d x => if p x then dinsert d x (f x) else d) acc) k =
      if k ∈ ids ∧ p k then some (f k) else dlookup acc k := by
  induction ids generalizing acc with
  | nil => simp
  | cons x rest ih =>
    rw [List.foldl_cons, ih]
    by_cases hk : k ∈ rest ∧ p k
    · rw [if_pos hk, if_pos ⟨List.mem_cons_of_mem x hk.1, hk.2⟩]
    · rw [if_neg hk]
      by_cases hxk : x = k
      · subst hxk
        by_cases hp : p x
        · rw [if_pos hp, dlookup_dinsert, if_pos rfl,
            if_pos ⟨List.mem_cons_self x rest, hp⟩]
        · rw [if_neg hp, if_neg fun hh => hp hh.2]
      · have hcond : ¬ (k ∈ x :: rest ∧ p k) := by
          intro hh
          rcases List.mem_cons.mp hh.1 with h1 | h1
          · exact hxk h1.symm
          · exact hk ⟨h1, hh.2⟩
        by_cases hp : p x
        · rw [if_pos hp, dlookup_dinsert, if_neg fun hh => hxk hh.symm, if_neg hcond]
        · rw [if_neg hp, if_neg hcond]

theorem dlookup_foldl_dinsert [DecidableEq α] (f : α → β) (ids : List α)
    (acc : Dict α β) (k : α) :
    dlookup (ids.foldl (fun d x => dinsert d x (f x)) acc) k =
      if k ∈ ids then some (f k) else dlookup acc k := by
  induction ids generalizing acc with
  | nil => simp
  | cons x rest ih =>
    rw [List.foldl_cons, ih]
    by_cases hk : k ∈ rest
    · rw [if_pos hk, if_pos (List.mem_cons_of_mem x hk)]
    · rw [if_neg hk, dlookup_dinsert]
      by_cases hxk : k = x
      · rw [if_pos hxk, if_pos (List.mem_cons.mpr (Or.inl hxk)), hxk]
      · rw [if_neg hxk,
          if_neg fun hh => (List.mem_cons.mp hh).elim (fun h => hxk h) hk]

theorem dlookup_buildRow (ids : List String) (co : Dict (String × String) ℕ)
    (item other : String) :
    dlookup (buildRow ids co item) other =
      if other ∈ ids ∧ item ≠ other then some (dget co (sortPair item other) 0)
      else none := by
  unfold buildRow
  rw [dlookup_foldl_dinsert_guard (fun o => dget co (sortPair item o) 0)
    (fun o => item ≠ o) ids [] other]
  rfl

theorem dlookup_buildSim (ids : List String) (co : Dict (String × String) ℕ)
    (sim : Dict String (Dict String ℕ)) (A : String) :
    dlookup (buildSim ids co sim) A =
      if A ∈ ids then some (buildRow ids co A) else dlookup sim A := by
  unfold buildSim
  rw [dlookup_foldl_dinsert (buildRow ids co) ids sim A]

theorem mem_buildRow {ids : List String} {co : Dict (String × String) ℕ}
    {item : String} {p : String × ℕ} (hp : p ∈ buildRow ids co item) :
    p.1 ∈ ids ∧ item ≠ p.1 := by
  have hs := isSome_dlookup_of_mem hp
  rw [dlookup_buildRow] at hs
  by_cases h : p.1 ∈ ids ∧ item ≠ p.1
  · exact h
  · rw [if_neg h] at hs
    cases hs

/-! ### Canonical co-occurrence keys -/

theorem foldl_inv {α β : Type} (motive : β → Prop) (op : β → α → β) (l : List α)
    (b : β) (hb : motive b) (hl : ∀ acc, motive acc → ∀ a ∈ l, motive (op acc a)) :
    motive (l.foldl op b) := by
  induction l generalizing b with
  | nil => exact hb
  | cons x rest ih =>
    rw [List.foldl_cons]
    exact ih (op b x) (hl b hb x (List.mem_cons_self x rest))
      (fun acc hacc a ha => hl acc hacc a (List.mem_cons_of_mem x ha))

theorem countPairsFrom_key_inv {P : String × String → Prop}
    (hP : ∀ a b, P (sortPair a b)) (x : String) (rest : List String)
    {co : Dict (String × String) ℕ} (h0 : ∀ q ∈ co, P q.1) :
    ∀ q ∈ countPairsFrom x rest co, P q.1 := by
  unfold countPairsFrom
  refine foldl_inv (fun acc => ∀ q ∈ acc, P q.1) _ rest co h0 ?_
  intro acc hacc y _ q hq
  rcases mem_dinsert hq with h | h
  · rw [h]
    exact hP x y
  · exact hacc q h

theorem countPairs_key_inv {P : String × String → Prop}
    (hP : ∀ a b, P (sortPair a b)) :
    ∀ (items : List String) (co : Dict (String × String) ℕ),
      (∀ q ∈ co, P q.1) → ∀ q ∈ countPairs items co, P q.1 := by
  intro items
  induction items with
  | nil =>
    intro co h0
    simpa [countPairs] using h0
  | cons x rest ih =>
    intro co h0
    exact ih _ (countPairsFrom_key_inv hP x rest h0)

theorem countAllUsers_key_inv {P : String × String → Prop}
    (hP : ∀ a b, P (sortPair a b)) (ui : Dict String (List String))
    {co : Dict (String × String) ℕ} (h0 : ∀ q ∈ co, P q.1) :
    ∀ q ∈ countAllUsers ui co, P q.1 := by
  unfold countAllUsers
  refine foldl_inv (fun acc => ∀ q ∈ acc, P q.1) _ ui co h0 ?_
  intro acc hacc pr _
  exact countPairs_key_inv hP pr.2 acc hacc

/-! ### The invariant of reachable recommender states -/

theorem fitGroup_ids_mono (ints : List Interaction) (ui : Dict String (List String))
    (ids : List String) : ids ⊆ (fitGroup ints ui ids).2 := by
  induction ints generalizing ui ids with
  | nil => exact fun a ha => ha
  | cons i rest ih =>
    simp only [fitGroup]
    intro a ha
    refine ih _ _ ?_
    by_cases h : i.item_id ∈ ids
    · rwa [if_pos h]
    · rw [if_neg h]
      exact List.mem_append_left _ ha

theorem fitGroup_ids_nodup (ints : List Interaction) (ui : Dict String (List String))
    {ids : List String} (h : ids.Nodup) : (fitGroup ints ui ids).2.Nodup := by
  induction ints generalizing ui ids with
  | nil => exact h
  | cons i rest ih =>
    simp only [fitGroup]
    refine ih _ ?_
    by_cases hmem : i.item_id ∈ ids
    · rwa [if_pos hmem]
    · rw [if_neg hmem]
      exact List.Nodup.append h (List.nodup_singleton _)
        (fun a ha hb => hmem ((List.mem_singleton.mp hb) ▸ ha))

/-- The structural facts holding of every state a sequence of fit calls can
produce: item_similarity has an entry exactly for the registered items, every
stored row is the full freshly built row over the current tables, the
registered ids are distinct, and every co_occurrence key is sorted. -/
def Complete (st : ItemToItemCF) : Prop :=
  (∀ A, (dlookup st.item_similarity A).isSome ↔ A ∈ st.item_ids) ∧
  (∀ A row, dlookup st.item_similarity A = some row →
    row = buildRow st.item_ids st.co_occurrence A) ∧
  st.item_ids.Nodup ∧
  (∀ q ∈ st.co_occurrence, strLe q.1.1 q.1.2 = true)

theorem complete_init : Complete ItemToItemCF.init := by
  refine ⟨?_, ?_, ?_, ?_⟩ <;> simp [ItemToItemCF.init, dlookup]

theorem complete_fit {st : ItemToItemCF} (hst : Complete st)
    (ints : List Interaction) : Complete (st.fit ints) := by
  obtain ⟨hsome, _, hnodup, hco⟩ := hst
  have hmono : st.item_ids ⊆ (fitGroup ints [] st.item_ids).2 :=
    fitGroup_ids_mono ints [] st.item_ids
  unfold Complete ItemToItemCF.fit
  refine ⟨?_, ?_, ?_, ?_⟩
  · intro A
    rw [dlookup_buildSim]
    by_cases hA : A ∈ (fitGroup ints [] st.item_ids).2
    · simp [hA]
    · rw [if_neg hA]
      constructor
      · intro hs
        exact absurd (hmono ((hsome A).mp hs)) hA
      · intro hs
        exact absurd hs hA
  · intro A row h
    rw [dlookup_buildSim] at h
    by_cases hA : A ∈ (fitGroup ints [] st.item_ids).2
    · rw [if_pos hA] at h
      exact (Option.some.inj h).symm
    · rw [if_neg hA] at h
      have hs : (dlookup st.item_similarity A).isSome := by rw [h]; rfl
      exact absurd (hmono ((hsome A).mp hs)) hA
  · exact fitGroup_ids_nodup ints [] hnodup
  · exact @countAllUsers_key_inv (fun k => strLe k.1 k.2 = true)
      sortPair_canonical _ _ hco

theorem complete_stOf (ss : List (List Interaction)) : Complete (stOf ss) := by
  unfold stOf
  refine foldl_inv Complete _ ss ItemToItemCF.init complete_init ?_
  intro st hc ints _
  exact complete_fit hc ints

/-! ### The scores dict built by recommend -/

theorem accumStep_none {st : ItemToItemCF} {history : List String} {h : String}
    (hh : dlookup st.item_similarity h = none) (scores : Dict String ℕ) :
    accumStep st history scores h = scores := by
  unfold accumStep
  rw [hh]

theorem accumStep_some {st : ItemToItemCF} {history : List String} {h : String}
    {row : Dict String ℕ} (hh : dlookup st.item_similarity h = some row)
    (scores : Dict String ℕ) :
    accumStep st history scores h =
      row.foldl (fun sc p =>
        if p.1 ∈ history then sc else dinsert sc p.1 (dget sc p.1 0 + p.2)) scores := by
  unfold accumStep
  rw [hh]

theorem isSome_dlookup_dinsert_of [DecidableEq α] {l : Dict α β} {k k' : α} (v : β)
    (h : (dlookup l k').isSome) : (dlookup (dinsert l k v) k').isSome := by
  rw [dlookup_dinsert]
  by_cases hk : k' = k
  · rw [if_pos hk]
    rfl
  · rwa [if_neg hk]

theorem rowFold_preserves_key {history : List String} {row : Dict String ℕ}
    {c : String} {acc : Dict String ℕ} (h : (dlookup acc c).isSome) :
    (dlookup (row.foldl (fun sc p =>
      if p.1 ∈ history then sc else dinsert sc p.1 (dget sc p.1 0 + p.2)) acc)
      c).isSome := by
  refine foldl_inv (fun sc => (dlookup sc c).isSome) _ row acc h ?_
  intro sc hsc p _
  by_cases hp : p.1 ∈ history
  · rwa [if_pos hp]
  · rw [if_neg hp]
    exact isSome_dlookup_dinsert_of _ hsc

theorem accumStep_preserves_key {st : ItemToItemCF} {history : List String}
    {c h : String} {scores : Dict String ℕ} (hs : (dlookup scores c).isSome) :
    (dlookup (accumStep st history scores h) c).isSome := by
  cases hrow : dlookup st.item_similarity h with
  | none => rwa [accumStep_none hrow]
  | some row =>
    rw [accumStep_some hrow]
    exact rowFold_preserves_key hs

theorem rowFold_sets_key {history : List String} {row : Dict String ℕ}
    {c : String} {v : ℕ} (hcv : (c, v) ∈ row) (hch : c ∉ history)
    (acc : Dict String ℕ) :
    (dlookup (row.foldl (fun sc p =>
      if p.1 ∈ history then sc else dinsert sc p.1 (dget sc p.1 0 + p.2)) acc)
      c).isSome := by
  rcases List.append_of_mem hcv with ⟨r1, r2, hsplit⟩
  subst hsplit
  rw [List.foldl_append, List.foldl_cons]
  refine foldl_inv (fun sc => (dlookup sc c).isSome) _ r2 _ ?_ ?_
  · dsimp only
    rw [if_neg hch, dlookup_dinsert, if_pos rfl]
    rfl
  · intro sc hsc p _
    by_cases hp : p.1 ∈ history
    · rwa [if_pos hp]
    · rw [if_neg hp]
      exact isSome_dlookup_dinsert_of _ hsc

theorem foldl_accumStep_sets_key {st : ItemToItemCF} {H : List String}
    {h0 c : String} {row : Dict String ℕ} {v : ℕ}
    (hrow : dlookup st.item_similarity h0 = some row) (hcv : (c, v) ∈ row)
    (hch : c ∉ H) (l1 l2 : List String) (acc : Dict String ℕ) :
    (dlookup ((l1 ++ h0 :: l2).foldl (accumStep st H) acc) c).isSome := by
  rw [List.foldl_append, List.foldl_cons]
  refine foldl_inv (fun sc => (dlookup sc c).isSome) _ l2 _ ?_ ?_
  · rw [accumStep_some hrow]
    exact rowFold_sets_key hcv hch _
  · intro sc hsc a _
    exact accumStep_preserves_key hsc

theorem accumScores_sets_key {st : ItemToItemCF} {history : List String}
    {h0 c : String} {row : Dict String ℕ} {v : ℕ} (hh0 : h0 ∈ history)
    (hrow : dlookup st.item_similarity h0 = some row) (hcv : (c, v) ∈ row)
    (hch : c ∉ history) : (dlookup (accumScores st history) c).isSome := by
  unfold accumScores
  rcases List.append_of_mem hh0 with ⟨l1, l2, hsplit⟩
  rw [hsplit] at hch ⊢
  exact foldl_accumStep_sets_key hrow hcv hch l1 l2 []

theorem accumScores_not_mem_history (st : ItemToItemCF) (history : List String) :
    ∀ p ∈ accumScores st history, p.1 ∉ history := by
  unfold accumScores
  refine foldl_inv (fun sc : Dict String ℕ => ∀ p ∈ sc, p.1 ∉ history) _ history [] (by simp) ?_
  intro acc hacc h _
  cases hrow : dlookup st.item_similarity h with
  | none => rwa [accumStep_none hrow]
  | some row =>
    rw [accumStep_some hrow]
    refine foldl_inv (fun sc : Dict String ℕ => ∀ p ∈ sc, p.1 ∉ history) _ row acc hacc ?_
    intro sc hsc q _
    by_cases hq : q.1 ∈ history
    · rwa [if_pos hq]
    · rw [if_neg hq]
      intro p hp
      rcases mem_dinsert hp with h' | h'
      · rw [h']
        exact hq
      · exact hsc p h'

theorem accumScores_keys_known {st : ItemToItemCF} (hc : Complete st)
    (history : List String) :
    ∀ p ∈ accumScores st history, p.1 ∈ st.item_ids := by
  obtain ⟨hsome, hrowf, _, _⟩ := hc
  unfold accumScores
  refine foldl_inv (fun sc : Dict String ℕ => ∀ p ∈ sc, p.1 ∈ st.item_ids) _ history [] (by simp) ?_
  intro acc hacc h _
  cases hrow : dlookup st.item_similarity h with
  | none => rwa [accumStep_none hrow]
  | some row =>
    rw [accumStep_some hrow]
    have hrow' := hrowf h row hrow
    refine foldl_inv (fun sc : Dict String ℕ => ∀ p ∈ sc, p.1 ∈ st.item_ids) _ row acc hacc ?_
    intro sc hsc q hq
    by_cases hmem : q.1 ∈ history
    · rwa [if_pos hmem]
    · rw [if_neg hmem]
      intro p hp
      rcases mem_dinsert hp with h' | h'
      · have hq' : q ∈ buildRow st.item_ids st.co_occurrence h := hrow' ▸ hq
        rw [h']
        exact (mem_buildRow hq').1
      · exact hsc p h'

theorem accumScores_nodup_keys (st : ItemToItemCF) (history : List String) :
    ((accumScores st history).map Prod.fst).Nodup := by
  unfold accumScores
  refine foldl_inv (fun sc : Dict String ℕ => (sc.map Prod.fst).Nodup) _ history [] (by simp) ?_
  intro acc hacc h _
  cases hrow : dlookup st.item_similarity h with
  | none => rwa [accumStep_none hrow]
  | some row =>
    rw [accumStep_some hrow]
    refine foldl_inv (fun sc : Dict String ℕ => (sc.map Prod.fst).Nodup) _ row acc hacc ?_
    intro sc hsc q _
    by_cases hq : q.1 ∈ history
    · rwa [if_pos hq]
    · rw [if_neg hq]
      exact nodupKeys_dinsert _ _ hsc

theorem pySlice_nil (n : ℤ) : pySlice n ([] : List α) = [] := by
  unfold pySlice
  by_cases h : 0 ≤ n
  · rw [if_pos h, List.take_nil]
  · rw [if_neg h, List.take_nil]

/-! ### Skipping unknown history items -/

theorem foldl_accumStep_filter (st : ItemToItemCF) (H : List String) :
    ∀ (history : List String) (acc : Dict String ℕ),
      history.foldl (accumStep st H) acc =
        (history.filter (fun h => (dlookup st.item_similarity h).isSome)).foldl
          (accumStep st H) acc := by
  intro history
  induction history with
  | nil => intro acc; rfl
  | cons h rest ih =>
    intro acc
    by_cases hk : (dlookup st.item_similarity h).isSome
    · rw [List.foldl_cons, List.filter_cons_of_pos (by simpa using hk),
        List.foldl_cons, ih]
    · rw [List.foldl_cons, List.filter_cons_of_neg (by simpa using hk),
        accumStep_none (Option.not_isSome_iff_eq_none.mp hk), ih]

theorem accumStep_congr_known {st : ItemToItemCF} (hc : Complete st)
    {history H2 : List String}
    (hiff : ∀ c, c ∈ st.item_ids → (c ∈ history ↔ c ∈ H2)) :
    ∀ (acc : Dict String ℕ) (h : String),
      accumStep st history acc h = accumStep st H2 acc h := by
  intro acc h
  cases hrow : dlookup st.item_similarity h with
  | none => rw [accumStep_none hrow, accumStep_none hrow]
  | some row =>
    rw [accumStep_some hrow, accumStep_some hrow]
    have hrowval := hc.2.1 h row hrow
    apply List.foldl_ext
    intro acc' p hp
    have hp' : p ∈ buildRow st.item_ids st.co_occurrence h := hrowval ▸ hp
    have hpk : p.1 ∈ st.item_ids := (mem_buildRow hp').1
    by_cases hmem : p.1 ∈ history
    · rw [if_pos hmem, if_pos ((hiff p.1 hpk).mp hmem)]
    · rw [if_neg hmem, if_neg (fun hh => hmem ((hiff p.1 hpk).mpr hh))]

theorem accumScores_filter {st : ItemToItemCF} (hc : Complete st)
    (history : List String) :
    accumScores st history =
      accumScores st
        (history.filter (fun h => (dlookup st.item_similarity h).isSome)) := by
  unfold accumScores
  rw [foldl_accumStep_filter]
  have hiff : ∀ c, c ∈ st.item_ids →
      (c ∈ history ↔
        c ∈ history.filter (fun h => (dlookup st.item_similarity h).isSome)) := by
    intro c hck
    rw [List.mem_filter]
    constructor
    · intro h1
      exact ⟨h1, (hc.1 c).mpr hck⟩
    · exact fun h1 => h1.1
  apply List.foldl_ext
  intro acc h _
  exact accumStep_congr_known hc hiff acc h

/-! ### The score fold as a sum of per-key contributions -/

theorem calcStep_eq (item : Dict String Scalar) (a : ℚ) (kv : String × Scalar) :
    calcStep item a kv = a + pyContrib item kv := by
  unfold calcStep pyContrib
  cases dlookup item kv.1 with
  | none => simp
  | some v =>
    dsimp only
    by_cases h1 : pyEq v kv.2 = true
    · rw [if_pos h1, if_pos h1]
    · rw [if_neg h1, if_neg h1]
      by_cases h2 : (kv.2.isNumeric && v.isNumeric) = true
      · rw [if_pos h2, if_pos h2]
      · rw [if_neg h2, if_neg h2, add_zero]

theorem calculateSimilarity_eq_sum (query item : Dict String Scalar) :
    calculateSimilarity query item = (query.map (pyContrib item)).sum := by
  unfold calculateSimilarity
  suffices h : ∀ (q : Dict String Scalar) (a : ℚ),
      q.foldl (calcStep item) a = a + (q.map (pyContrib item)).sum by
    simpa using h query 0
  intro q
  induction q with
  | nil => intro a; simp
  | cons kv rest ih =>
    intro a
    rw [List.foldl_cons, ih, calcStep_eq, List.map_cons, List.sum_cons]
    ring

/-! ### Claim C1 -/

/-- C1 (code bug): the claim says fit has full-retrain (replace) semantics
and that fit([]) clears all state to empty.  The code never clears item_ids,
co_occurrence or item_similarity, so after fitting one user with items a, b
and then fitting the empty list, the item set still holds a and b and the
co-occurrence pair (a, b) still counts 1, while the same calls on a fresh
recommender leave everything empty. -/
theorem C1_fit_not_full_retrain :
    ((ItemToItemCF.init.fit [⟨"u", "a", 5⟩, ⟨"u", "b", 5⟩]).fit []).item_ids =
      ["a", "b"] ∧
    ((ItemToItemCF.init.fit [⟨"u", "a", 5⟩, ⟨"u", "b", 5⟩]).fit []).co_occurrence =
      [(("a", "b"), 1)] ∧
    (ItemToItemCF.init.fit ([] : List Interaction)).item_ids = [] ∧
    (ItemToItemCF.init.fit [⟨"u", "a", 5⟩, ⟨"u", "b", 5⟩]).fit [] ≠
      ItemToItemCF.init.fit ([] : List Interaction) := by
  exact ⟨by decide, by decide, by decide, by decide⟩

/-! ### Claim C2 -/

/-- C2 (code bug): the claim says fit is idempotent on identical input.  The
code accumulates co-occurrence counts across calls, so fitting the same two
interactions twice stores similarity 2 for the pair (a, b) where a single fit
stores 1, and the two similarity tables differ. -/
theorem C2_fit_not_idempotent :
    simAt ((ItemToItemCF.init.fit [⟨"u", "a", 5⟩, ⟨"u", "b", 5⟩]).fit
      [⟨"u", "a", 5⟩, ⟨"u", "b", 5⟩]) "a" "b" = some 2 ∧
    simAt (ItemToItemCF.init.fit [⟨"u", "a", 5⟩, ⟨"u", "b", 5⟩]) "a" "b" = some 1 ∧
    ((ItemToItemCF.init.fit [⟨"u", "a", 5⟩, ⟨"u", "b", 5⟩]).fit
      [⟨"u", "a", 5⟩, ⟨"u", "b", 5⟩]).item_similarity ≠
      (ItemToItemCF.init.fit [⟨"u", "a", 5⟩, ⟨"u", "b", 5⟩]).item_similarity := by
  exact ⟨by decide, by decide, by decide⟩

/-! ### Claim C3 -/

/-- C3 counterexample: the claim scores a boolean query value against a
numeric stored value as a type mismatch contributing 0, but Python's
isinstance counts booleans as numbers, so the code scores 1/(1+|1-3|) = 1/3
for query value True against stored value 3. -/
theorem C3_counterexample :
    calculateSimilarity [("k", Scalar.bool true)] [("k", Scalar.num 3)] = 1/3 ∧
    claimScoreC3 [("k", Scalar.bool true)] [("k", Scalar.num 3)] = 0 ∧
    calculateSimilarity [("k", Scalar.bool true)] [("k", Scalar.num 3)] ≠
      claimScoreC3 [("k", Scalar.bool true)] [("k", Scalar.num 3)] := by
  have hne : (Scalar.num 3 : Scalar) ≠ Scalar.bool true := by decide
  refine ⟨?_, ?_, ?_⟩
  · norm_num [calculateSimilarity, calcStep, dlookup, pyEq, Scalar.numVal,
      Scalar.isNumeric]
  · norm_num [claimScoreC3, claimContribC3, dlookup, Scalar.isNum, hne]
  · norm_num [calculateSimilarity, calcStep, claimScoreC3, claimContribC3,
      dlookup, pyEq, Scalar.numVal, Scalar.isNumeric, Scalar.isNum, hne]

/-- C3 as amended: the per-candidate score is the sum, over every query key,
of exactly 0 when the key is absent, 1 when the values are equal under
Python equality, the decayed proximity 1/(1+|q-v|) when they are unequal and
both numeric with booleans counting as numeric (True = 1, False = 0), and 0
otherwise. -/
theorem C3_amended_scoring (query item : Dict String Scalar) :
    calculateSimilarity query item = (query.map (pyContrib item)).sum :=
  calculateSimilarity_eq_sum query item

/-! ### Claim C4 -/

/-- C4 counterexample: the claim says every n ≤ 0 yields an empty result,
but Python's negative slice keeps all but the last |n| entries, so with two
scored candidates and n = -1 the code returns one recommendation. -/
theorem C4_counterexample :
    (ItemToItemCF.init.fit
      [⟨"u", "a", 5⟩, ⟨"u", "b", 5⟩, ⟨"u", "c", 5⟩]).recommend ["a"] (-1) =
      [("b", 1)] ∧
    (ItemToItemCF.init.fit
      [⟨"u", "a", 5⟩, ⟨"u", "b", 5⟩, ⟨"u", "c", 5⟩]).recommend ["a"] (-1) ≠ [] := by
  exact ⟨by decide, by decide⟩

/-- C4 as amended: n = 0 always yields an empty result, and a negative n
yields an empty result whenever |n| is at least the number of scored
candidates; no error is raised in any case (the operations are total). -/
theorem C4_amended_empty (st : ItemToItemCF) (history : List String)
    (cb : ContentBasedFilter) (query : Dict String Scalar) (n : ℤ)
    (h1 : n = 0 ∨ ((accumScores st history).length : ℤ) + n ≤ 0)
    (h2 : n = 0 ∨ (cb.items.length : ℤ) + n ≤ 0) :
    st.recommend history n = [] ∧ cb.find_similar query n = [] := by
  constructor
  · unfold ItemToItemCF.recommend
    refine pySlice_eq_nil _ ?_
    rcases h1 with h | h
    · exact Or.inl h
    · refine Or.inr ?_
      rw [(sortDesc_perm _).length_eq]
      exact h
  · unfold ContentBasedFilter.find_similar
    refine pySlice_eq_nil _ ?_
    rcases h2 with h | h
    · exact Or.inl h
    · refine Or.inr ?_
      rw [(sortDesc_perm _).length_eq, List.length_map]
      exact h

/-- Witness for the amended C4 at concrete inputs: one scored candidate and
one stored item, sliced with n = -5. -/
theorem C4_amended_empty_witness :
    (ItemToItemCF.init.fit [⟨"u", "a", 5⟩, ⟨"u", "b", 5⟩]).recommend ["a"] (-5) = [] ∧
    (ContentBasedFilter.mk [("x", [("k", Scalar.num 1)])]).find_similar [] (-5) = [] :=
  C4_amended_empty _ ["a"] _ [] (-5) (by decide) (by decide)

/-! ### Claim C5 -/

/-- C5: in every state reachable by any sequence of fit calls, the
similarity table is symmetric on every pair of distinct known items, every
co-occurrence key is a canonically sorted pair, and no unordered pair of
distinct items is stored under both orderings. -/
theorem C5_symmetry_and_canonical_keys (ss : List (List Interaction))
    (A B : String) (hA : A ∈ (stOf ss).item_ids) (hB : B ∈ (stOf ss).item_ids)
    (hAB : A ≠ B) :
    simAt (stOf ss) A B = simAt (stOf ss) B A ∧
    (∀ q ∈ (stOf ss).co_occurrence, strLe q.1.1 q.1.2 = true) ∧
    (∀ X Y : String, X ≠ Y →
      ¬ ((dlookup (stOf ss).co_occurrence (X, Y)).isSome ∧
        (dlookup (stOf ss).co_occurrence (Y, X)).isSome)) := by
  obtain ⟨hsome, hrowf, hnodup, hco⟩ := complete_stOf ss
  refine ⟨?_, hco, ?_⟩
  · have hAs := (hsome A).mpr hA
    have hBs := (hsome B).mpr hB
    obtain ⟨rowA, hA'⟩ := Option.isSome_iff_exists.mp hAs
    obtain ⟨rowB, hB'⟩ := Option.isSome_iff_exists.mp hBs
    unfold simAt
    rw [hA', hB']
    dsimp only [Option.bind]
    rw [hrowf A rowA hA', hrowf B rowB hB', dlookup_buildRow, dlookup_buildRow,
      if_pos ⟨hB, hAB⟩, if_pos ⟨hA, fun hh => hAB hh.symm⟩, sortPair_comm]
  · rintro X Y hXY ⟨h1, h2⟩
    obtain ⟨v1, hv1⟩ := Option.isSome_iff_exists.mp h1
    obtain ⟨v2, hv2⟩ := Option.isSome_iff_exists.mp h2
    have hk1 := hco _ (mem_of_dlookup_eq_some hv1)
    have hk2 := hco _ (mem_of_dlookup_eq_some hv2)
    exact hXY (strLe_antisymm hk1 hk2)

/-- Witness for C5 at a concrete fitted state and item pair. -/
theorem C5_witness :
    simAt (stOf [[⟨"u", "a", 5⟩, ⟨"u", "b", 5⟩]]) "a" "b" =
      simAt (stOf [[⟨"u", "a", 5⟩, ⟨"u", "b", 5⟩]]) "b" "a" :=
  (C5_symmetry_and_canonical_keys [[⟨"u", "a", 5⟩, ⟨"u", "b", 5⟩]] "a" "b"
    (by decide) (by decide) (by decide)).1

/-! ### Claim C6 -/

/-- C6: every sequence returned by recommend and by find_similar, in every
state and for every input, is sorted non-increasing by score. -/
theorem C6_sorted_outputs (st : ItemToItemCF) (history : List String) (n : ℤ)
    (cb : ContentBasedFilter) (query : Dict String Scalar) (m : ℤ) :
    (st.recommend history n).Pairwise (fun a b => b.2 ≤ a.2) ∧
    (cb.find_similar query m).Pairwise (fun a b => b.2 ≤ a.2) := by
  unfold ItemToItemCF.recommend ContentBasedFilter.find_similar
  constructor
  · exact (pairwise_sortDesc (accumScores st history)).sublist
      (pySlice_sublist n (sortDesc (accumScores st history)))
  · exact (pairwise_sortDesc
      (cb.items.map (fun p => (p.1, calculateSimilarity query p.2)))).sublist
      (pySlice_sublist m _)

/-! ### Claim C7 -/

/-- C7: no item identifier returned by recommend is present in the history
list, in every state, for every history and every n. -/
theorem C7_self_exclusion (st : ItemToItemCF) (history : List String) (n : ℤ)
    (p : String × ℕ) (hp : p ∈ st.recommend history n) : p.1 ∉ history := by
  have h1 : p ∈ sortDesc (accumScores st history) :=
    (pySlice_sublist n (sortDesc (accumScores st history))).subset hp
  have h2 : p ∈ accumScores st history := (sortDesc_perm _).mem_iff.mp h1
  exact accumScores_not_mem_history st history p h2

/-- Witness for C7 at a concrete fitted state and nonempty result. -/
theorem C7_witness :
    (("b", 1) ∈ (ItemToItemCF.init.fit [⟨"u", "a", 5⟩, ⟨"u", "b", 5⟩]).recommend
      ["a"] 5) ∧ ("b" : String) ∉ ["a"] :=
  ⟨by decide, C7_self_exclusion
    (ItemToItemCF.init.fit [⟨"u", "a", 5⟩, ⟨"u", "b", 5⟩]) ["a"] 5 ("b", 1)
    (by decide)⟩

/-! ### Claim C8 -/

theorem fitGroup_congr :
    ∀ (S1 S2 : List Interaction),
      S1.map (fun i => (i.user_id, i.item_id)) =
        S2.map (fun i => (i.user_id, i.item_id)) →
      ∀ ui ids, fitGroup S1 ui ids = fitGroup S2 ui ids := by
  intro S1
  induction S1 with
  | nil =>
    intro S2 h ui ids
    rw [List.map_eq_nil_iff.mp h.symm]
  | cons i r ih =>
    intro S2 h ui ids
    cases S2 with
    | nil => simp at h
    | cons j r2 =>
      simp only [List.map_cons, List.cons.injEq] at h
      obtain ⟨hij, hrest⟩ := h
      have hu : i.user_id = j.user_id := congrArg Prod.fst hij
      have hi : i.item_id = j.item_id := congrArg Prod.snd hij
      simp only [fitGroup]
      rw [hu, hi]
      exact ih r2 hrest _ _

/-- C8: two interaction sequences that agree on user and item identifiers
(differing only in ratings) drive fit to identical states, and hence to
identical recommendations for every history and n; the rating field never
influences the model. -/
theorem C8_rating_noninterference (st : ItemToItemCF) (S1 S2 : List Interaction)
    (h : S1.map (fun i => (i.user_id, i.item_id)) =
      S2.map (fun i => (i.user_id, i.item_id))) :
    st.fit S1 = st.fit S2 ∧
    ∀ (history : List String) (n : ℤ),
      (st.fit S1).recommend history n = (st.fit S2).recommend history n := by
  have hg := fitGroup_congr S1 S2 h [] st.item_ids
  have hfit : st.fit S1 = st.fit S2 := by
    unfold ItemToItemCF.fit
    rw [hg]
  exact ⟨hfit, fun history n => by rw [hfit]⟩

/-- Witness for C8: the same interactions under two different ratings. -/
theorem C8_witness :
    ItemToItemCF.init.fit [⟨"u", "a", 5⟩, ⟨"u", "b", 4⟩] =
      ItemToItemCF.init.fit [⟨"u", "a", 1⟩, ⟨"u", "b", 2⟩] :=
  (C8_rating_noninterference ItemToItemCF.init
    [⟨"u", "a", 5⟩, ⟨"u", "b", 4⟩] [⟨"u", "a", 1⟩, ⟨"u", "b", 2⟩] (by decide)).1

/-! ### Claim C9 -/

/-- C9: for every fitted state, a history with no known items (in particular
an empty history) yields an empty recommendation list for every n, and
unknown items in a mixed history are skipped: the result equals the result
on the history filtered to its known items. -/
theorem C9_unknown_items (ss : List (List Interaction)) (history : List String)
    (n : ℤ) :
    ((∀ h ∈ history, dlookup (stOf ss).item_similarity h = none) →
      (stOf ss).recommend history n = []) ∧
    (stOf ss).recommend history n =
      (stOf ss).recommend
        (history.filter (fun h => (dlookup (stOf ss).item_similarity h).isSome))
        n := by
  constructor
  · intro hall
    unfold ItemToItemCF.recommend
    have hz : accumScores (stOf ss) history = [] := by
      unfold accumScores
      refine foldl_inv (fun sc : Dict String ℕ => sc = []) _ history [] rfl ?_
      intro acc hacc h hh
      rw [accumStep_none (hall h hh)]
      exact hacc
    rw [hz]
    exact pySlice_nil n
  · unfold ItemToItemCF.recommend
    rw [accumScores_filter (complete_stOf ss) history]

/-- Witness for C9: a history of one unknown item yields an empty result,
and a mixed history gives the same result as its known part. -/
theorem C9_witness :
    (stOf [[⟨"u", "a", 5⟩, ⟨"u", "b", 5⟩]]).recommend ["z"] 5 = [] ∧
    (stOf [[⟨"u", "a", 5⟩, ⟨"u", "b", 5⟩]]).recommend ["a", "z"] 5 =
      (stOf [[⟨"u", "a", 5⟩, ⟨"u", "b", 5⟩]]).recommend
        (["a", "z"].filter (fun h =>
          (dlookup (stOf [[⟨"u", "a", 5⟩, ⟨"u", "b", 5⟩]]).item_similarity
            h).isSome)) 5 :=
  ⟨(C9_unknown_items [[⟨"u", "a", 5⟩, ⟨"u", "b", 5⟩]] ["z"] 5).1 (by decide),
    (C9_unknown_items [[⟨"u", "a", 5⟩, ⟨"u", "b", 5⟩]] ["a", "z"] 5).2⟩

/-! ### Claim C10 -/

/-- C10: in every fitted state whose history holds at least one known item,
the score dict of recommend has an entry for every known item outside the
history (zero co-occurrence included), and once n is at least the number of
such candidates, every one of them appears in the returned list. -/
theorem C10_zero_score_inclusion (ss : List (List Interaction))
    (history : List String) (n : ℤ) (c : String)
    (hc : c ∈ (stOf ss).item_ids) (hch : c ∉ history)
    (hknown : ∃ h ∈ history, (dlookup (stOf ss).item_similarity h).isSome)
    (hn : (((stOf ss).item_ids.filter (fun x => decide (x ∉ history))).length : ℤ) ≤ n) :
    (dlookup (accumScores (stOf ss) history) c).isSome ∧
    c ∈ ((stOf ss).recommend history n).map Prod.fst := by
  obtain ⟨hsome, hrowf, hnodup, hco⟩ := complete_stOf ss
  obtain ⟨h0, hh0, hk0⟩ := hknown
  obtain ⟨row, hrow⟩ := Option.isSome_iff_exists.mp hk0
  have hrowval := hrowf h0 row hrow
  have hch0 : h0 ≠ c := fun hh => hch (hh ▸ hh0)
  have hlook : dlookup row c =
      some (dget (stOf ss).co_occurrence (sortPair h0 c) 0) := by
    rw [hrowval, dlookup_buildRow, if_pos ⟨hc, hch0⟩]
  have hcv : (c, dget (stOf ss).co_occurrence (sortPair h0 c) 0) ∈ row :=
    mem_of_dlookup_eq_some hlook
  have hkey : (dlookup (accumScores (stOf ss) history) c).isSome :=
    accumScores_sets_key hh0 hrow hcv hch
  refine ⟨hkey, ?_⟩
  obtain ⟨v, hv⟩ := Option.isSome_iff_exists.mp hkey
  have hmem : (c, v) ∈ accumScores (stOf ss) history := mem_of_dlookup_eq_some hv
  have hkeysub : ((accumScores (stOf ss) history).map Prod.fst) ⊆
      (stOf ss).item_ids.filter (fun x => decide (x ∉ history)) := by
    intro a ha
    rcases List.mem_map.mp ha with ⟨p, hp, hpa⟩
    have h1 := accumScores_keys_known ⟨hsome, hrowf, hnodup, hco⟩ history p hp
    have h2 := accumScores_not_mem_history (stOf ss) history p hp
    rw [← hpa, List.mem_filter]
    exact ⟨h1, by simpa using h2⟩
  have hlen : (accumScores (stOf ss) history).length ≤
      ((stOf ss).item_ids.filter (fun x => decide (x ∉ history))).length := by
    have hle :=
      (List.Nodup.subperm (accumScores_nodup_keys (stOf ss) history) hkeysub).length_le
    simpa using hle
  have hlen2 : ((sortDesc (accumScores (stOf ss) history)).length : ℤ) ≤ n := by
    rw [(sortDesc_perm _).length_eq]
    exact le_trans (by exact_mod_cast hlen) hn
  unfold ItemToItemCF.recommend
  rw [pySlice_eq_self _ hlen2]
  refine List.mem_map.mpr ⟨(c, v), ?_, rfl⟩
  exact (sortDesc_perm _).mem_iff.mpr hmem

/-- Witness for C10: with items a, b, c fitted and history [a], item b (and
c) must be returned once n covers both candidates. -/
theorem C10_witness :
    (dlookup (accumScores
      (stOf [[⟨"u", "a", 5⟩, ⟨"u", "b", 5⟩, ⟨"u", "c", 5⟩]]) ["a"]) "b").isSome ∧
    "b" ∈ ((stOf [[⟨"u", "a", 5⟩, ⟨"u", "b", 5⟩, ⟨"u", "c", 5⟩]]).recommend
      ["a"] 5).map Prod.fst :=
  C10_zero_score_inclusion [[⟨"u", "a", 5⟩, ⟨"u", "b", 5⟩, ⟨"u", "c", 5⟩]]
    ["a"] 5 "b" (by decide) (by decide) (by decide) (by decide)
